import Mathlib

/-!
Verification of the traffic-poller rate/aggregation/statistics engine.

Shallow embedding of the report code (`database.sh` embedded node script,
`stats.js`, and the standalone insight tool): the SQL `samples` rows of one
interface become a `List Row`, the SQL `MIN`/`MAX` aggregates become folds,
and the per-bucket / per-pair rate computations are translated expression by
expression.  JavaScript numbers are modelled by `ℚ` (exact arithmetic),
sample columns by `Int`.
-/

namespace TrafficPoller

/-- One row of the `samples` table for a single interface:
`(timestamp, in_octets, out_octets, in_errors, out_errors)`.
The insight and hourly queries read only the first three columns. -/
structure Row where
  ts : Int
  inOct : Int
  outOct : Int
  inErr : Int
  outErr : Int
deriving DecidableEq

/-- Mbps value as computed by every report path:
`(bytes * 8) / duration / 1000000`. -/
def mbpsOf (bytes duration : Int) : ℚ :=
  (bytes : ℚ) * 8 / (duration : ℚ) / 1000000

/-- A valid rate observation pushed into an insight slot
(`{ rxMbps, txMbps, rxBytes, txBytes }` in the source). -/
structure Obs where
  rxMbps : ℚ
  txMbps : ℚ
  rxBytes : Int
  txBytes : Int
deriving DecidableEq

/-- An insight chart bucket: its start time and the observation,
`none` standing for the source's `{ rxMbps: null, txMbps: null }`. -/
structure Slot where
  time : Int
  obs : Option Obs
deriving DecidableEq

/-- Bracket loop of `showInsight`/the insight tool: one pass over the ordered
rows; `prev` is overwritten by every row with `ts <= slotStart`, `next` is set
by the first row with `ts >= slotEnd` (`!nextSample` guard). -/
def bracket (rows : List Row) (slotStart slotEnd : Int) : Option Row × Option Row :=
  rows.foldl
    (fun st r =>
      (if r.ts ≤ slotStart then some r else st.1,
       if slotEnd ≤ r.ts ∧ st.2 = none then some r else st.2))
    (none, none)

/-- First component of `bracket` on its own (proof helper). -/
def prevScan (rows : List Row) (slotStart : Int) : Option Row :=
  rows.foldl (fun acc r => if r.ts ≤ slotStart then some r else acc) none

/-- Second component of `bracket` on its own (proof helper). -/
def nextScan (rows : List Row) (slotEnd : Int) : Option Row :=
  rows.foldl (fun acc r => if slotEnd ≤ r.ts ∧ acc = none then some r else acc) none

/-- Observation built from a bracketing pair in the insight path: the source
only requires `nextSample[0] > prevSample[0]`; octet deltas are not checked. -/
def insightObs (p n : Row) : Option Obs :=
  if p.ts < n.ts then
    some { rxMbps := mbpsOf (n.inOct - p.inOct) (n.ts - p.ts),
           txMbps := mbpsOf (n.outOct - p.outOct) (n.ts - p.ts),
           rxBytes := n.inOct - p.inOct,
           txBytes := n.outOct - p.outOct }
  else none

/-- One bucket of the insight chart: `slotStart = alignedStart + i*intervalSecs`,
`slotEnd = slotStart + intervalSecs`, bracket then rate. -/
def slotCalc (rows : List Row) (slotStart intervalSecs : Int) : Slot :=
  match bracket rows slotStart (slotStart + intervalSecs) with
  | (some p, some n) => { time := slotStart, obs := insightObs p n }
  | _ => { time := slotStart, obs := none }

/-- `alignedEnd = Math.floor(now / intervalSecs) * intervalSecs`. -/
def alignedEnd (now intervalSecs : Int) : Int :=
  (Int.fdiv now intervalSecs) * intervalSecs

/-- `alignedStart = alignedEnd - numSlots * intervalSecs`. -/
def alignedStart (now intervalSecs : Int) (numSlots : Nat) : Int :=
  alignedEnd now intervalSecs - numSlots * intervalSecs

/-- Sample query of the insight path:
`WHERE ... timestamp >= alignedStart - intervalSecs ORDER BY timestamp`,
modelled as an order-preserving filter of the interface's row list. -/
def queriedRows (rows : List Row) (aStart intervalSecs : Int) : List Row :=
  rows.filter (fun r => aStart - intervalSecs ≤ r.ts)

/-- Slot loop of the insight path: for `i` in `[0, numSlots)` one bucket
starting at `alignedStart + i * intervalSecs`. -/
def insightSlots (rows : List Row) (aStart intervalSecs : Int) (numSlots : Nat) : List Slot :=
  (List.range numSlots).map
    (fun (i : Nat) => slotCalc rows (aStart + (i : Int) * intervalSecs) intervalSecs)

/-- `showInsight` bucket computation: align, query, and either signal
"Not enough data" (`none`, fewer than 2 samples) or produce the slots. -/
def showInsight (rows : List Row) (now intervalSecs : Int) (numSlots : Nat) : Option (List Slot) :=
  let aS := alignedStart now intervalSecs numSlots
  let q := queriedRows rows aS intervalSecs
  if q.length < 2 then none else some (insightSlots q aS intervalSecs numSlots)

/-- One step of the insight `maxMbps` scan:
`maxMbps = Math.max(maxMbps, slot.rxMbps, slot.txMbps)` over valid slots. -/
def maxStep (m : ℚ) (s : Slot) : ℚ :=
  match s.obs with
  | some o => max (max m o.rxMbps) o.txMbps
  | none => m

/-- Observed maximum of the chart's two series over the valid slots, 0 start. -/
def maxMbpsOf (slots : List Slot) : ℚ :=
  slots.foldl maxStep 0

/-- Vertical scale ceiling of the chart:
`if (maxMbps === 0) maxMbps = 1; niceMax = Math.ceil(maxMbps * 1.1)`. -/
def niceMax (slots : List Slot) : Int :=
  let m := maxMbpsOf slots
  ⌈(if m = 0 then 1 else m) * (11 / 10 : ℚ)⌉

/-- Midpoint timestamp of a consecutive pair: `(t1 + t2) / 2`. -/
def midpoint (p n : Row) : ℚ :=
  ((p.ts + n.ts : Int) : ℚ) / 2

/-- Per-pair observation of `getHourlyRates`: skip `duration <= 0` and gaps
`> 600` seconds, skip negative octet deltas (counter reset), else the
(rx, tx) Mbps pair. -/
def hourlyPairObs (p n : Row) : Option (ℚ × ℚ) :=
  let duration := n.ts - p.ts
  if duration ≤ 0 ∨ 600 < duration then none
  else if n.inOct - p.inOct < 0 ∨ n.outOct - p.outOct < 0 then none
  else some (mbpsOf (n.inOct - p.inOct) duration, mbpsOf (n.outOct - p.outOct) duration)

/-- Class assignment of `getHourlyRates`: a pair's observation lands in class
`h` exactly when the local hour of its midpoint is `h`.  The JavaScript
`new Date(midpoint * 1000).getHours()` local-time conversion is abstracted as
a function `localHour : ℚ → Fin 24` (it depends on the host timezone). -/
def hourlyClassify (localHour : ℚ → Fin 24) (h : Fin 24) (pr : Row × Row) : Option (ℚ × ℚ) :=
  match hourlyPairObs pr.1 pr.2 with
  | some o => if localHour (midpoint pr.1 pr.2) = h then some o else none
  | none => none

/-- Observations accumulated into hour class `h`, in order, from the loop over
consecutive pairs `(rows[i-1], rows[i])`. -/
def hourlyAssigned (rows : List Row) (localHour : ℚ → Fin 24) (h : Fin 24) : List (ℚ × ℚ) :=
  (rows.zip (rows.drop 1)).filterMap (hourlyClassify localHour h)

/-- `getHourlyRates`: `null` when the interface has fewer than 2 samples, else
the 24 per-hour observation lists. -/
def getHourlyRates (rows : List Row) (localHour : ℚ → Fin 24) : Option (Fin 24 → List (ℚ × ℚ)) :=
  if rows.length < 2 then none else some (fun h => hourlyAssigned rows localHour h)

/-- `percentile(sorted, p)`: linear interpolation at index
`(p/100) * (length-1)` between the floor and ceiling order statistics. -/
def percentile (sorted : List ℚ) (p : ℚ) : ℚ :=
  if sorted.length = 0 then 0
  else
    let idx : ℚ := (p / 100) * ((sorted.length : ℚ) - 1)
    let lower : Int := ⌊idx⌋
    let upper : Int := ⌈idx⌉
    if lower = upper then sorted.getD lower.toNat 0
    else
      sorted.getD lower.toNat 0 +
        (sorted.getD upper.toNat 0 - sorted.getD lower.toNat 0) * (idx - (lower : ℚ))

/-- Rational part of the `calcStats` summary.  `stddev` and `ci` apply
`Math.sqrt` (irrational); the Bessel-corrected `variance` they are derived
from, and the t-factor (`tLookup` below), are modelled instead. -/
structure Stats where
  n : Nat
  mean : ℚ
  min : ℚ
  max : ℚ
  p50 : ℚ
  p95 : ℚ
  p99 : ℚ
  variance : ℚ
deriving DecidableEq

/-- `calcStats`: `null` on an empty list; else sort ascending, mean by
`reduce`, extremes from the sorted list, interpolated percentiles, and for
`n > 1` the `n-1`-denominator variance (0 when `n = 1`). -/
def calcStats (values : List ℚ) : Option Stats :=
  if values.length = 0 then none
  else
    let sorted := List.insertionSort (· ≤ ·) values
    let n := values.length
    let mean := values.foldl (· + ·) 0 / (n : ℚ)
    some { n := n
           mean := mean
           min := sorted.getD 0 0
           max := sorted.getD (n - 1) 0
           p50 := percentile sorted 50
           p95 := percentile sorted 95
           p99 := percentile sorted 99
           variance :=
             if n = 1 then 0
             else values.foldl (fun s v => s + (v - mean) ^ 2) 0 / ((n : ℚ) - 1) }

/-- The source's `tValues` object, in the ascending key order `Object.entries`
iterates integer-like keys in:
`{2:12.71, 3:4.3, 4:3.18, 5:2.78, 6:2.57, 7:2.45, 8:2.36, 9:2.31, 10:2.26, 15:2.13, 20:2.09, 30:2.04}`. -/
def tTable : List (Nat × ℚ) :=
  [(2, 1271/100), (3, 43/10), (4, 318/100), (5, 278/100), (6, 257/100), (7, 245/100),
   (8, 236/100), (9, 231/100), (10, 226/100), (15, 213/100), (20, 209/100), (30, 204/100)]

/-- The source's t-factor selection: `t = 1.96`, then the first table entry
with `n - 1 <= key` wins (`break`). -/
def tLookup (n : Nat) : ℚ :=
  match tTable.find? (fun e => decide (n - 1 ≤ e.1)) with
  | some e => e.2
  | none => 196/100

/-- Modelled from the spec: the claim's fixed table keyed by degrees of
freedom `n-1`:
`{1:12.71, 2:4.30, 3:3.18, 4:2.78, 5:2.57, 6:2.45, 7:2.36, 8:2.31, 9:2.26, 14:2.13, 19:2.09, 29:2.04}`. -/
def specTTable : List (Nat × ℚ) :=
  [(1, 1271/100), (2, 43/10), (3, 318/100), (4, 278/100), (5, 257/100), (6, 245/100),
   (7, 236/100), (8, 231/100), (9, 226/100), (14, 213/100), (19, 209/100), (29, 204/100)]

/-- Modelled from the spec: t is the value of the first entry of the df-keyed
table whose key is `>= n-1`, and `1.96` when no key is. -/
def specTLookup (n : Nat) : ℚ :=
  match specTTable.find? (fun e => decide (n - 1 ≤ e.1)) with
  | some e => e.2
  | none => 196/100

/-- Result of the period traffic query `getTraffic`. -/
structure Traffic where
  rx : Int
  tx : Int
  errors : Int
  duration : Int
deriving DecidableEq

/-- SQL `MIN` over a non-empty column (0 on the empty list, unused there). -/
def listMin : List Int → Int
  | [] => 0
  | x :: xs => xs.foldl min x

/-- SQL `MAX` over a non-empty column (0 on the empty list, unused there). -/
def listMax : List Int → Int
  | [] => 0
  | x :: xs => xs.foldl max x

/-- Window of the period traffic query:
`WHERE ... timestamp >= since ORDER BY timestamp`. -/
def trafficWindow (rows : List Row) (since : Int) : List Row :=
  rows.filter (fun r => since ≤ r.ts)

/-- `getTraffic`: MIN/MAX aggregates over the window.  `null` when the window
is empty or `t_start` is falsy (the JavaScript `!result[0].values[0][0]` check
also rejects timestamp 0) or `duration <= 0`; else byte/error deltas of the
aggregates. -/
def getTraffic (rows : List Row) (since : Int) : Option Traffic :=
  match trafficWindow rows since with
  | [] => none
  | q@(_ :: _) =>
    let tS := listMin (q.map Row.ts)
    let tE := listMax (q.map Row.ts)
    if tS = 0 then none
    else if tE - tS ≤ 0 then none
    else
      some { rx := listMax (q.map Row.inOct) - listMin (q.map Row.inOct)
             tx := listMax (q.map Row.outOct) - listMin (q.map Row.outOct)
             errors := (listMax (q.map Row.inErr) - listMin (q.map Row.inErr)) +
               (listMax (q.map Row.outErr) - listMin (q.map Row.outErr))
             duration := tE - tS }

/-- Modelled from the claim (C10): the reference period-traffic computation
takes the differences between the chronologically last and first samples of
the same window, with the same no-data guards as `getTraffic`.
Returns `(rx, tx, duration)`. -/
def refTraffic (rows : List Row) (since : Int) : Option (Int × Int × Int) :=
  match (trafficWindow rows since).head?, (trafficWindow rows since).getLast? with
  | some a, some b =>
    if a.ts = 0 then none
    else if b.ts - a.ts ≤ 0 then none
    else some (b.inOct - a.inOct, b.outOct - a.outOct, b.ts - a.ts)
  | _, _ => none

unseal Rat.mul Rat.inv Rat.add Rat.sub

/-! ### Helper lemmas: the bracket scan -/

lemma bracket_foldl (rows : List Row) (a b : Option Row) (s e : Int) :
    rows.foldl
      (fun st r =>
        (if r.ts ≤ s then some r else st.1,
         if e ≤ r.ts ∧ st.2 = none then some r else st.2))
      (a, b)
    = (rows.foldl (fun acc r => if r.ts ≤ s then some r else acc) a,
       rows.foldl (fun acc r => if e ≤ r.ts ∧ acc = none then some r else acc) b) := by
  induction rows generalizing a b with
  | nil => rfl
  | cons r rs ih => simp only [List.foldl_cons]; exact ih _ _

lemma bracket_eq (rows : List Row) (s e : Int) :
    bracket rows s e = (prevScan rows s, nextScan rows e) :=
  bracket_foldl rows none none s e

lemma prevScan_append (xs : List Row) (x : Row) (s : Int) :
    prevScan (xs ++ [x]) s = if x.ts ≤ s then some x else prevScan xs s := by
  simp [prevScan, List.foldl_append]

lemma prevScan_none_iff (s : Int) : ∀ rows : List Row,
    (prevScan rows s = none ↔ ∀ r ∈ rows, s < r.ts) := by
  intro rows
  induction rows using List.reverseRecOn with
  | nil => simp [prevScan]
  | append_singleton xs x ih =>
    rw [prevScan_append]
    by_cases hx : x.ts ≤ s
    · rw [if_pos hx]
      constructor
      · intro h; cases h
      · intro h; exact absurd (h x (by simp)) (not_lt.mpr hx)
    · rw [if_neg hx, ih]
      constructor
      · intro h r hr
        rcases List.mem_append.mp hr with h1 | h1
        · exact h r h1
        · simp only [List.mem_singleton] at h1; subst h1; exact not_le.mp hx
      · intro h r hr; exact h r (List.mem_append.mpr (Or.inl hr))

lemma prevScan_some (s : Int) : ∀ rows : List Row, ∀ p,
    prevScan rows s = some p → p ∈ rows ∧ p.ts ≤ s := by
  intro rows
  induction rows using List.reverseRecOn with
  | nil => intro p hp; simp [prevScan] at hp
  | append_singleton xs x ih =>
    intro p hp
    rw [prevScan_append] at hp
    by_cases hx : x.ts ≤ s
    · rw [if_pos hx] at hp; injection hp with hp; subst hp
      exact ⟨List.mem_append.mpr (Or.inr (by simp)), hx⟩
    · rw [if_neg hx] at hp
      obtain ⟨h1, h2⟩ := ih p hp
      exact ⟨List.mem_append.mpr (Or.inl h1), h2⟩

lemma prevScan_latest (s : Int) : ∀ rows : List Row,
    rows.Pairwise (fun a b => a.ts ≤ b.ts) → ∀ p,
    prevScan rows s = some p → ∀ r ∈ rows, r.ts ≤ s → r.ts ≤ p.ts := by
  intro rows
  induction rows using List.reverseRecOn with
  | nil => intro _ p hp; simp [prevScan] at hp
  | append_singleton xs x ih =>
    intro hs p hp r hr hrs
    rw [List.pairwise_append] at hs
    rw [prevScan_append] at hp
    by_cases hx : x.ts ≤ s
    · rw [if_pos hx] at hp; injection hp with hp; subst hp
      rcases List.mem_append.mp hr with h | h
      · exact hs.2.2 r h x (by simp)
      · simp only [List.mem_singleton] at h; subst h; exact le_refl _
    · rw [if_neg hx] at hp
      rcases List.mem_append.mp hr with h | h
      · exact ih hs.1 p hp r h hrs
      · simp only [List.mem_singleton] at h; subst h; exact absurd hrs hx

lemma nextScan_absorb (e : Int) (q : Row) : ∀ rows : List Row,
    rows.foldl (fun acc r => if e ≤ r.ts ∧ acc = none then some r else acc) (some q) = some q := by
  intro rows
  induction rows with
  | nil => rfl
  | cons r rs ih =>
    have hc : ¬(e ≤ r.ts ∧ (some q : Option Row) = none) := by simp
    simp only [List.foldl_cons, if_neg hc]
    exact ih

lemma nextScan_cons (r : Row) (rs : List Row) (e : Int) :
    nextScan (r :: rs) e = if e ≤ r.ts then some r else nextScan rs e := by
  unfold nextScan
  simp only [List.foldl_cons]
  by_cases h : e ≤ r.ts
  · rw [if_pos (by simp [h]), if_pos h]; exact nextScan_absorb e r rs
  · rw [if_neg (by simp [h]), if_neg h]

lemma nextScan_none_iff (e : Int) : ∀ rows : List Row,
    (nextScan rows e = none ↔ ∀ r ∈ rows, r.ts < e) := by
  intro rows
  induction rows with
  | nil => simp [nextScan]
  | cons r rs ih =>
    rw [nextScan_cons]
    by_cases h : e ≤ r.ts
    · rw [if_pos h]
      constructor
      · intro hc; cases hc
      · intro hall; exact absurd (hall r (by simp)) (not_lt.mpr h)
    · rw [if_neg h, ih]
      constructor
      · intro hall r' hr'
        rcases List.mem_cons.mp hr' with h1 | h1
        · subst h1; exact not_le.mp h
        · exact hall r' h1
      · intro hall r' hr'; exact hall r' (List.mem_cons.mpr (Or.inr hr'))

lemma nextScan_some (e : Int) : ∀ rows : List Row, ∀ n,
    nextScan rows e = some n → n ∈ rows ∧ e ≤ n.ts := by
  intro rows
  induction rows with
  | nil => intro n hn; simp [nextScan] at hn
  | cons r rs ih =>
    intro n hn
    rw [nextScan_cons] at hn
    by_cases h : e ≤ r.ts
    · rw [if_pos h] at hn; injection hn with hn; subst hn
      exact ⟨by simp, h⟩
    · rw [if_neg h] at hn
      obtain ⟨h1, h2⟩ := ih n hn
      exact ⟨List.mem_cons.mpr (Or.inr h1), h2⟩

lemma nextScan_earliest (e : Int) : ∀ rows : List Row,
    rows.Pairwise (fun a b => a.ts ≤ b.ts) → ∀ n,
    nextScan rows e = some n → ∀ r ∈ rows, e ≤ r.ts → n.ts ≤ r.ts := by
  intro rows
  induction rows with
  | nil => intro _ n hn; simp [nextScan] at hn
  | cons r rs ih =>
    intro hs n hn r' hr' hre
    rw [List.pairwise_cons] at hs
    rw [nextScan_cons] at hn
    by_cases h : e ≤ r.ts
    · rw [if_pos h] at hn; injection hn with hn; subst hn
      rcases List.mem_cons.mp hr' with h1 | h1
      · subst h1; exact le_refl _
      · exact hs.1 r' h1
    · rw [if_neg h] at hn
      rcases List.mem_cons.mp hr' with h1 | h1
      · subst h1; exact absurd hre h
      · exact ih hs.2 n hn r' h1 hre

lemma slotCalc_time (rows : List Row) (s S : Int) : (slotCalc rows s S).time = s := by
  rcases hb : bracket rows s (s + S) with ⟨p?, n?⟩
  cases p? <;> cases n? <;> simp [slotCalc, hb]

lemma slotCalc_obs_some (rows : List Row) (s S : Int) (o : Obs) :
    (slotCalc rows s S).obs = some o →
    ∃ p n, bracket rows s (s + S) = (some p, some n) ∧ insightObs p n = some o := by
  intro h
  rcases hb : bracket rows s (s + S) with ⟨p?, n?⟩
  cases p? with
  | none => simp [slotCalc, hb] at h
  | some p =>
    cases n? with
    | none => simp [slotCalc, hb] at h
    | some n =>
      simp only [slotCalc, hb] at h
      exact ⟨p, n, rfl, h⟩

/-! ### Helper lemmas: rates and the hourly classifier -/

lemma mbpsOf_nonneg {bytes duration : Int} (hb : 0 ≤ bytes) (hd : 0 < duration) :
    0 ≤ mbpsOf bytes duration := by
  unfold mbpsOf
  apply div_nonneg _ (by norm_num)
  apply div_nonneg _ (by exact_mod_cast hd.le)
  have hbq : (0 : ℚ) ≤ (bytes : ℚ) := by exact_mod_cast hb
  linarith

lemma hourlyPairObs_some {p n : Row} {o : ℚ × ℚ} (h : hourlyPairObs p n = some o) :
    0 < n.ts - p.ts ∧ n.ts - p.ts ≤ 600 ∧ p.inOct ≤ n.inOct ∧ p.outOct ≤ n.outOct ∧
      o = (mbpsOf (n.inOct - p.inOct) (n.ts - p.ts), mbpsOf (n.outOct - p.outOct) (n.ts - p.ts)) := by
  simp only [hourlyPairObs] at h
  by_cases h1 : n.ts - p.ts ≤ 0 ∨ 600 < n.ts - p.ts
  · rw [if_pos h1] at h; cases h
  · rw [if_neg h1] at h
    by_cases h2 : n.inOct - p.inOct < 0 ∨ n.outOct - p.outOct < 0
    · rw [if_pos h2] at h; cases h
    · rw [if_neg h2] at h
      push_neg at h1 h2
      refine ⟨by omega, by omega, by omega, by omega, ?_⟩
      injection h with h
      exact h.symm

lemma hourlyClassify_some {f : ℚ → Fin 24} {h : Fin 24} {pr : Row × Row} {x : ℚ × ℚ}
    (hc : hourlyClassify f h pr = some x) :
    hourlyPairObs pr.1 pr.2 = some x ∧ f (midpoint pr.1 pr.2) = h := by
  cases ho : hourlyPairObs pr.1 pr.2 with
  | none => simp [hourlyClassify, ho] at hc
  | some o =>
    simp only [hourlyClassify, ho] at hc
    by_cases hf : f (midpoint pr.1 pr.2) = h
    · rw [if_pos hf] at hc
      injection hc with hc; subst hc
      exact ⟨rfl, hf⟩
    · rw [if_neg hf] at hc; cases hc

lemma hourlyClassify_ne_none {f : ℚ → Fin 24} {h' : Fin 24} {pr : Row × Row}
    (hc : hourlyClassify f h' pr ≠ none) : f (midpoint pr.1 pr.2) = h' := by
  cases ho : hourlyPairObs pr.1 pr.2 with
  | none => simp [hourlyClassify, ho] at hc
  | some o =>
    simp only [hourlyClassify, ho] at hc
    by_cases hf : f (midpoint pr.1 pr.2) = h'
    · exact hf
    · rw [if_neg hf] at hc; exact absurd rfl hc

/-! ### Helper lemmas: list extremes (the SQL MIN/MAX aggregates) -/

lemma foldl_min_le_init : ∀ (xs : List Int) (x : Int), xs.foldl min x ≤ x := by
  intro xs
  induction xs with
  | nil => intro x; exact le_refl x
  | cons y ys ih => intro x; exact le_trans (ih (min x y)) (min_le_left x y)

lemma init_le_foldl_max : ∀ (xs : List Int) (x : Int), x ≤ xs.foldl max x := by
  intro xs
  induction xs with
  | nil => intro x; exact le_refl x
  | cons y ys ih => intro x; exact le_trans (le_max_left x y) (ih (max x y))

lemma listMin_le_listMax (x : Int) (xs : List Int) :
    listMin (x :: xs) ≤ listMax (x :: xs) :=
  le_trans (foldl_min_le_init xs x) (init_le_foldl_max xs x)

lemma foldl_min_sorted : ∀ (xs : List Int) (x : Int), (∀ y ∈ xs, x ≤ y) → xs.foldl min x = x := by
  intro xs
  induction xs with
  | nil => intro x _; rfl
  | cons y ys ih =>
    intro x h
    have hxy : min x y = x := min_eq_left (h y (by simp))
    simp only [List.foldl_cons, hxy]
    exact ih x (fun z hz => h z (by simp [hz]))

lemma foldl_max_last : ∀ (xs : List Int) (x : Int), (x :: xs).Pairwise (· ≤ ·) →
    some (xs.foldl max x) = (x :: xs).getLast? := by
  intro xs
  induction xs with
  | nil => intro x _; simp
  | cons y ys ih =>
    intro x h
    rw [List.pairwise_cons] at h
    have hxy : max x y = y := max_eq_right (h.1 y (by simp))
    simp only [List.foldl_cons, hxy]
    rw [List.getLast?_cons_cons]
    exact ih y h.2

/-! ### Helper lemmas: the chart maximum scan -/

lemma le_maxStep (a : ℚ) (s : Slot) : a ≤ maxStep a s := by
  cases h : s.obs with
  | none => simp [maxStep, h]
  | some o =>
    simp only [maxStep, h]
    exact le_trans (le_max_left _ _) (le_max_left _ _)

lemma le_foldl_maxStep : ∀ (slots : List Slot) (a : ℚ), a ≤ slots.foldl maxStep a := by
  intro slots
  induction slots with
  | nil => intro a; exact le_refl a
  | cons s ss ih =>
    intro a
    simp only [List.foldl_cons]
    exact le_trans (le_maxStep a s) (ih (maxStep a s))

lemma foldl_maxStep_bound : ∀ (slots : List Slot) (a : ℚ) (s : Slot) (o : Obs),
    s ∈ slots → s.obs = some o →
    o.rxMbps ≤ slots.foldl maxStep a ∧ o.txMbps ≤ slots.foldl maxStep a := by
  intro slots
  induction slots with
  | nil => intro a s o hs _; cases hs
  | cons hd tl ih =>
    intro a s o hs ho
    simp only [List.foldl_cons]
    rcases List.mem_cons.mp hs with h1 | h1
    · subst h1
      constructor
      · refine le_trans ?_ (le_foldl_maxStep tl (maxStep a s))
        simp only [maxStep, ho]
        exact le_trans (le_max_right _ _) (le_max_left _ _)
      · refine le_trans ?_ (le_foldl_maxStep tl (maxStep a s))
        simp only [maxStep, ho]
        exact le_max_right _ _
    · exact ih (maxStep a hd) s o h1 ho

lemma foldl_maxStep_attained : ∀ (slots : List Slot) (a : ℚ),
    slots.foldl maxStep a = a ∨
    ∃ s ∈ slots, ∃ o, s.obs = some o ∧
      (slots.foldl maxStep a = o.rxMbps ∨ slots.foldl maxStep a = o.txMbps) := by
  intro slots
  induction slots with
  | nil => intro a; exact Or.inl rfl
  | cons hd tl ih =>
    intro a
    simp only [List.foldl_cons]
    rcases ih (maxStep a hd) with h | ⟨s, hs, o, ho, hor⟩
    · rw [h]
      cases hobs : hd.obs with
      | none => left; simp only [maxStep, hobs]
      | some o =>
        rcases max_choice (max a o.rxMbps) o.txMbps with h1 | h1
        · rcases max_choice a o.rxMbps with h2 | h2
          · left
            simp only [maxStep, hobs]
            rw [h1, h2]
          · right
            refine ⟨hd, by simp, o, hobs, Or.inl ?_⟩
            simp only [maxStep, hobs]
            rw [h1, h2]
        · right
          refine ⟨hd, by simp, o, hobs, Or.inr ?_⟩
          simp only [maxStep, hobs]
          rw [h1]
    · right; exact ⟨s, List.mem_cons.mpr (Or.inr hs), o, ho, hor⟩

/-! ### Helper lemmas: bucket interval arithmetic -/

lemma interval_cover (a S : Int) (hS : 0 < S) (N : Nat) (t : Int) :
    (a ≤ t ∧ t < a + N * S) ↔ ∃ i : Nat, i < N ∧ a + i * S ≤ t ∧ t < a + i * S + S := by
  constructor
  · rintro ⟨h1, h2⟩
    set d := t - a with hd
    have hd0 : 0 ≤ d := by omega
    have hdN : d < N * S := by omega
    set k := d / S with hk
    have hadd : S * k + d % S = d := Int.ediv_add_emod d S
    have hm0 : 0 ≤ d % S := Int.emod_nonneg d (by omega)
    have hmS : d % S < S := Int.emod_lt_of_pos d hS
    have hk0 : 0 ≤ k := Int.ediv_nonneg hd0 hS.le
    have hkN : k < N := by
      rw [hk, Int.ediv_lt_iff_lt_mul hS]
      exact hdN
    have hcast : (k.toNat : Int) = k := Int.toNat_of_nonneg hk0
    refine ⟨k.toNat, by omega, ?_, ?_⟩
    · rw [hcast]
      have hsk : S * k ≤ d := by linarith
      have : k * S ≤ d := by rw [mul_comm]; exact hsk
      linarith
    · rw [hcast]
      have : d < S * k + S := by linarith
      have h3 : d < k * S + S := by rw [mul_comm k S]; exact this
      linarith
  · rintro ⟨i, hiN, h1, h2⟩
    have hi0 : (0 : Int) ≤ (i : Int) * S := mul_nonneg (by positivity) hS.le
    have hiNq : (i : Int) + 1 ≤ (N : Int) := by exact_mod_cast hiN
    have h3 : ((i : Int) + 1) * S ≤ (N : Int) * S := mul_le_mul_of_nonneg_right hiNq hS.le
    have hexp : ((i : Int) + 1) * S = (i : Int) * S + S := by ring
    constructor
    · linarith
    · linarith

lemma alignedStart_add (now S : Int) (N : Nat) :
    alignedStart now S N + N * S = alignedEnd now S := by
  unfold alignedStart
  ring

/-! ### Claim theorems -/

/-- C1 (amended): every rate observation of the hour-of-day aggregator comes
from two consecutive samples of the queried interface with strictly
increasing timestamps and non-decreasing octet counters, and its rx/tx Mbps
values are non-negative; the period traffic query only returns positive
durations and non-negative rx/tx deltas; the interval/insight bucket path,
however, enforces only strictly increasing timestamps on its bracketing
pair — its octet deltas are the raw differences, which a counter reset makes
negative (see the counterexample). -/
theorem C1_rate_observation :
    (∀ (rows : List Row) (f : ℚ → Fin 24) (h : Fin 24), ∀ x ∈ hourlyAssigned rows f h,
      ∃ p n, (p, n) ∈ rows.zip (rows.drop 1) ∧ p.ts < n.ts ∧
        p.inOct ≤ n.inOct ∧ p.outOct ≤ n.outOct ∧ 0 ≤ x.1 ∧ 0 ≤ x.2) ∧
    (∀ (rows : List Row) (since : Int) (t : Traffic), getTraffic rows since = some t →
      0 < t.duration ∧ 0 ≤ t.rx ∧ 0 ≤ t.tx) ∧
    (∀ (rows : List Row) (s S : Int) (o : Obs), (slotCalc rows s S).obs = some o →
      ∃ p n, p ∈ rows ∧ n ∈ rows ∧ p.ts < n.ts ∧
        o.rxBytes = n.inOct - p.inOct ∧ o.txBytes = n.outOct - p.outOct) := by
  refine ⟨?_, ?_, ?_⟩
  · intro rows f h x hx
    rw [hourlyAssigned, List.mem_filterMap] at hx
    obtain ⟨⟨p, n⟩, hmem, hcls⟩ := hx
    obtain ⟨hobs, _⟩ := hourlyClassify_some hcls
    obtain ⟨hd1, hd2, hi, ho, hxeq⟩ := hourlyPairObs_some hobs
    dsimp only at hd1 hd2 hi ho hxeq
    subst hxeq
    exact ⟨p, n, hmem, by omega, hi, ho,
      mbpsOf_nonneg (by omega) hd1, mbpsOf_nonneg (by omega) hd1⟩
  · intro rows since t ht
    cases hw : trafficWindow rows since with
    | nil => simp only [getTraffic, hw] at ht; cases ht
    | cons a rs =>
      simp only [getTraffic, hw] at ht
      by_cases h1 : listMin (List.map Row.ts (a :: rs)) = 0
      · rw [if_pos h1] at ht; cases ht
      · rw [if_neg h1] at ht
        by_cases h2 : listMax (List.map Row.ts (a :: rs)) - listMin (List.map Row.ts (a :: rs)) ≤ 0
        · rw [if_pos h2] at ht; cases ht
        · rw [if_neg h2] at ht
          injection ht with ht; subst ht
          simp only [List.map_cons] at h2
          have h3 := listMin_le_listMax a.inOct (rs.map Row.inOct)
          have h4 := listMin_le_listMax a.outOct (rs.map Row.outOct)
          refine ⟨?_, ?_, ?_⟩ <;> dsimp only <;> simp only [List.map_cons] <;> omega
  · intro rows s S o ho
    obtain ⟨p, n, hb, hio⟩ := slotCalc_obs_some rows s S o ho
    rw [bracket_eq] at hb
    have h1 : prevScan rows s = some p := congrArg Prod.fst hb
    have h2 : nextScan rows (s + S) = some n := congrArg Prod.snd hb
    obtain ⟨hpmem, _⟩ := prevScan_some s rows p h1
    obtain ⟨hnmem, _⟩ := nextScan_some (s + S) rows n h2
    unfold insightObs at hio
    by_cases hlt : p.ts < n.ts
    · rw [if_pos hlt] at hio
      injection hio with hio; subst hio
      exact ⟨p, n, hpmem, hnmem, hlt, rfl, rfl⟩
    · rw [if_neg hlt] at hio; cases hio

/-- C1 witness: the period-traffic conjunct applied to a concrete two-sample
window. -/
theorem C1_rate_observation_witness :
    0 < (Traffic.mk 20 20 4 100).duration ∧
      0 ≤ (Traffic.mk 20 20 4 100).rx ∧ 0 ≤ (Traffic.mk 20 20 4 100).tx :=
  C1_rate_observation.2.1 [⟨100, 10, 20, 1, 2⟩, ⟨200, 30, 40, 3, 4⟩] 0
    (Traffic.mk 20 20 4 100) (by decide)

/-- C1 counterexample: in the insight bucket path, a counter reset (in-octet
counter drops from 1000 to 0 across the bracketing pair) yields a slot whose
receive rate is the negative value `-1/37500` Mbps instead of the no-data
sentinel, refuting the claim as stated for that path. -/
theorem C1_counterexample :
    (((showInsight [⟨300, 1000, 1000, 0, 0⟩, ⟨600, 0, 0, 0, 0⟩] 600 300 1).getD
        []).head?.bind (fun s => s.obs)).map Obs.rxMbps = some (-1/37500) ∧
    (-1/37500 : ℚ) < 0 := by decide

/-- C2: for a pair of samples `(a, b)` of one interface with
`b.timestamp > a.timestamp` and non-decreasing octet counters, the computed
receive rate equals `(b.inOctets - a.inOctets) * 8 / (b.timestamp -
a.timestamp)` bits per second exactly, rendered in Mbps by further dividing
by 1,000,000; likewise for transmit — in the insight bucket path and
(under its 600-second gap ceiling) the hour-of-day aggregator. -/
theorem C2_rate_formula (a b : Row) (ht : a.ts < b.ts)
    (hin : a.inOct ≤ b.inOct) (hout : a.outOct ≤ b.outOct) :
    (insightObs a b).map (fun o => (o.rxMbps, o.txMbps)) =
      some (((b.inOct - a.inOct : Int) : ℚ) * 8 / ((b.ts - a.ts : Int) : ℚ) / 1000000,
            ((b.outOct - a.outOct : Int) : ℚ) * 8 / ((b.ts - a.ts : Int) : ℚ) / 1000000) ∧
    (b.ts - a.ts ≤ 600 →
      hourlyPairObs a b =
        some (((b.inOct - a.inOct : Int) : ℚ) * 8 / ((b.ts - a.ts : Int) : ℚ) / 1000000,
              ((b.outOct - a.outOct : Int) : ℚ) * 8 / ((b.ts - a.ts : Int) : ℚ) / 1000000)) := by
  constructor
  · simp [insightObs, ht, mbpsOf]
  · intro h600
    simp only [hourlyPairObs]
    rw [if_neg (by omega), if_neg (by omega)]
    simp [mbpsOf]

/-- C2 witness: the rate formula at the concrete pair
`(t=0, in=0, out=0)`, `(t=300, in=1000, out=2000)`. -/
theorem C2_rate_formula_witness :
    (insightObs ⟨0, 0, 0, 0, 0⟩ ⟨300, 1000, 2000, 0, 0⟩).map (fun o => (o.rxMbps, o.txMbps)) =
      some (((1000 - 0 : Int) : ℚ) * 8 / ((300 - 0 : Int) : ℚ) / 1000000,
            ((2000 - 0 : Int) : ℚ) * 8 / ((300 - 0 : Int) : ℚ) / 1000000) ∧
    ((300 : Int) - 0 ≤ 600 →
      hourlyPairObs ⟨0, 0, 0, 0, 0⟩ ⟨300, 1000, 2000, 0, 0⟩ =
        some (((1000 - 0 : Int) : ℚ) * 8 / ((300 - 0 : Int) : ℚ) / 1000000,
              ((2000 - 0 : Int) : ℚ) * 8 / ((300 - 0 : Int) : ℚ) / 1000000)) :=
  C2_rate_formula ⟨0, 0, 0, 0, 0⟩ ⟨300, 1000, 2000, 0, 0⟩ (by decide) (by decide) (by decide)

/-- C3: evaluation of the confidence-interval t-factor at the failing input
`n = 3` (two degrees of freedom): the source's lookup returns 12.71, while
the spec's df-keyed table mandates 4.30.  The source's table values are the
standard 95% t critical values for `df = key - 1`, but its comparison
`n - 1 <= key` selects them one step early. -/
theorem C3_tlookup_eval :
    tLookup 3 = 1271/100 ∧ specTLookup 3 = 43/10 ∧ tLookup 3 ≠ specTLookup 3 :=
  ⟨rfl, rfl, by decide⟩

/-- C5: over a timestamp-ordered sample sequence, the bracket search selects
`prev` = the latest sample with `ts ≤ start` (`none` exactly when no sample
qualifies) and `next` = the earliest sample with `ts ≥ end` (`none` exactly
when no sample qualifies), and the bucket carries no valid observation
whenever either is missing or `next.ts ≤ prev.ts`. -/
theorem C5_bracket_search (rows : List Row)
    (hs : rows.Pairwise (fun a b => a.ts ≤ b.ts)) (s S : Int) :
    ((bracket rows s (s + S)).1 = none ↔ ∀ r ∈ rows, s < r.ts) ∧
    (∀ p, (bracket rows s (s + S)).1 = some p →
      p ∈ rows ∧ p.ts ≤ s ∧ ∀ r ∈ rows, r.ts ≤ s → r.ts ≤ p.ts) ∧
    ((bracket rows s (s + S)).2 = none ↔ ∀ r ∈ rows, r.ts < s + S) ∧
    (∀ n, (bracket rows s (s + S)).2 = some n →
      n ∈ rows ∧ s + S ≤ n.ts ∧ ∀ r ∈ rows, s + S ≤ r.ts → n.ts ≤ r.ts) ∧
    (∀ p n, bracket rows s (s + S) = (some p, some n) → n.ts ≤ p.ts →
      (slotCalc rows s S).obs = none) ∧
    ((bracket rows s (s + S)).1 = none ∨ (bracket rows s (s + S)).2 = none →
      (slotCalc rows s S).obs = none) := by
  have hbe := bracket_eq rows s (s + S)
  refine ⟨?_, ?_, ?_, ?_, ?_, ?_⟩
  · rw [hbe]; exact prevScan_none_iff s rows
  · intro p hp
    rw [hbe] at hp
    have hp' : prevScan rows s = some p := hp
    obtain ⟨h1, h2⟩ := prevScan_some s rows p hp'
    exact ⟨h1, h2, prevScan_latest s rows hs p hp'⟩
  · rw [hbe]; exact nextScan_none_iff (s + S) rows
  · intro n hn
    rw [hbe] at hn
    have hn' : nextScan rows (s + S) = some n := hn
    obtain ⟨h1, h2⟩ := nextScan_some (s + S) rows n hn'
    exact ⟨h1, h2, nextScan_earliest (s + S) rows hs n hn'⟩
  · intro p n hb hle
    simp only [slotCalc, hb]
    unfold insightObs
    rw [if_neg (not_lt.mpr hle)]
  · intro h
    rcases hb : bracket rows s (s + S) with ⟨p?, n?⟩
    rw [hb] at h
    cases p? with
    | none => cases n? <;> simp [slotCalc, hb]
    | some p =>
      cases n? with
      | none => simp [slotCalc, hb]
      | some n => simp at h

/-- C5 witness: the `prev`-is-`none` characterisation at a concrete ordered
two-sample list and bucket `[300, 600)`. -/
theorem C5_bracket_search_witness :
    (bracket [⟨0, 0, 0, 0, 0⟩, ⟨100, 10, 10, 0, 0⟩] 300 (300 + 300)).1 = none ↔
      ∀ r ∈ ([⟨0, 0, 0, 0, 0⟩, ⟨100, 10, 10, 0, 0⟩] : List Row), 300 < r.ts :=
  (C5_bracket_search [⟨0, 0, 0, 0, 0⟩, ⟨100, 10, 10, 0, 0⟩] (by simp) 300 300).1

/-- C6: the hour-of-day aggregator never assigns an observation whose
consecutive-pair duration exceeds 600 seconds (nor one with non-positive
duration or a negative octet delta), and every observation it does assign
comes from a consecutive pair and lands in exactly the one of the 24 classes
given by the local hour of the pair's midpoint `(t1 + t2) / 2`. -/
theorem C6_hour_classes (rows : List Row) (f : ℚ → Fin 24) (h : Fin 24) :
    ∀ x ∈ hourlyAssigned rows f h, ∃ p n,
      (p, n) ∈ rows.zip (rows.drop 1) ∧
      0 < n.ts - p.ts ∧ n.ts - p.ts ≤ 600 ∧
      p.inOct ≤ n.inOct ∧ p.outOct ≤ n.outOct ∧
      f (midpoint p n) = h ∧
      hourlyClassify f h (p, n) = some x ∧
      (∀ h' : Fin 24, hourlyClassify f h' (p, n) ≠ none → h' = h) := by
  intro x hx
  rw [hourlyAssigned, List.mem_filterMap] at hx
  obtain ⟨⟨p, n⟩, hmem, hcls⟩ := hx
  obtain ⟨hobs, hf⟩ := hourlyClassify_some hcls
  obtain ⟨hd1, hd2, hi, ho, _⟩ := hourlyPairObs_some hobs
  exact ⟨p, n, hmem, hd1, hd2, hi, ho, hf, hcls,
    fun h' hne => ((hourlyClassify_ne_none hne).symm.trans hf)⟩

/-- C6 witness: the hour-class soundness applied to a concrete two-sample
list and the constant local-hour function. -/
theorem C6_hour_classes_witness :
    ∃ p n,
      (p, n) ∈ ([⟨0, 0, 0, 0, 0⟩, ⟨100, 100, 100, 0, 0⟩] : List Row).zip
        (([⟨0, 0, 0, 0, 0⟩, ⟨100, 100, 100, 0, 0⟩] : List Row).drop 1) ∧
      0 < n.ts - p.ts ∧ n.ts - p.ts ≤ 600 ∧
      p.inOct ≤ n.inOct ∧ p.outOct ≤ n.outOct ∧
      (fun _ : ℚ => (0 : Fin 24)) (midpoint p n) = 0 ∧
      hourlyClassify (fun _ : ℚ => (0 : Fin 24)) 0 (p, n) = some (1/125000, 1/125000) ∧
      (∀ h' : Fin 24, hourlyClassify (fun _ : ℚ => (0 : Fin 24)) h' (p, n) ≠ none → h' = 0) :=
  C6_hour_classes [⟨0, 0, 0, 0, 0⟩, ⟨100, 100, 100, 0, 0⟩] (fun _ => (0 : Fin 24)) 0
    (1/125000, 1/125000) (by decide)

/-- C4: for every positive step width `S`, bucket count `N`, reference
instant `now` and sample list, the insight aggregator produces exactly `N`
buckets whose start times are `alignedStart + i*S` (each `S` seconds wide),
contiguous and non-overlapping, together covering `[alignedStart,
alignedEnd)` where `alignedEnd = floor(now/S)*S` and `alignedStart =
alignedEnd - N*S`; and the sample query reaches back one extra step, to
`alignedStart - S`. -/
theorem C4_interval_buckets (now S : Int) (hS : 0 < S) (N : Nat) (rows : List Row) :
    (insightSlots rows (alignedStart now S N) S N).length = N ∧
    (insightSlots rows (alignedStart now S N) S N).map Slot.time =
      (List.range N).map (fun (i : Nat) => alignedStart now S N + (i : Int) * S) ∧
    (∀ i : Nat, alignedStart now S N + ((i + 1 : Nat) : Int) * S =
      (alignedStart now S N + i * S) + S) ∧
    (∀ i j : Nat, i < N → j < N → i ≠ j → ∀ t : Int,
      ¬((alignedStart now S N + i * S ≤ t ∧ t < alignedStart now S N + i * S + S) ∧
        (alignedStart now S N + j * S ≤ t ∧ t < alignedStart now S N + j * S + S))) ∧
    (∀ t : Int, (alignedStart now S N ≤ t ∧ t < alignedEnd now S) ↔
      ∃ i : Nat, i < N ∧ alignedStart now S N + i * S ≤ t ∧
        t < alignedStart now S N + i * S + S) ∧
    (∀ r : Row, r ∈ queriedRows rows (alignedStart now S N) S ↔
      r ∈ rows ∧ alignedStart now S N - S ≤ r.ts) := by
  refine ⟨?_, ?_, ?_, ?_, ?_, ?_⟩
  · simp only [insightSlots, List.length_map, List.length_range]
  · rw [insightSlots, List.map_map]
    apply List.map_congr_left
    intro i _
    exact slotCalc_time rows (alignedStart now S N + i * S) S
  · intro i; push_cast; ring
  · rintro i j hi hj hij t ⟨⟨h1, h2⟩, ⟨h3, h4⟩⟩
    rcases lt_or_gt_of_ne hij with h | h
    · have hc : (i : Int) + 1 ≤ (j : Int) := by exact_mod_cast h
      have hm : ((i : Int) + 1) * S ≤ (j : Int) * S := mul_le_mul_of_nonneg_right hc hS.le
      have hexp : ((i : Int) + 1) * S = (i : Int) * S + S := by ring
      linarith
    · have hc : (j : Int) + 1 ≤ (i : Int) := by exact_mod_cast h
      have hm : ((j : Int) + 1) * S ≤ (i : Int) * S := mul_le_mul_of_nonneg_right hc hS.le
      have hexp : ((j : Int) + 1) * S = (j : Int) * S + S := by ring
      linarith
  · intro t
    have hae : alignedEnd now S = alignedStart now S N + N * S := (alignedStart_add now S N).symm
    rw [hae]
    exact interval_cover (alignedStart now S N) S hS N t
  · intro r; simp [queriedRows]

/-- C4 witness: the bucket-count component at `now = 1000`, `S = 300`,
`N = 2`, no samples. -/
theorem C4_interval_buckets_witness :
    (insightSlots [] (alignedStart 1000 300 2) 300 2).length = 2 :=
  (C4_interval_buckets 1000 300 (by decide) 2 []).1

/-- C7: percentile equals linear interpolation at index `(p/100)*(n-1)`
between the floor and ceiling order statistics (the uniform formula, which
collapses to the single order statistic at integer indices); on the scenario
values `[1, 2, 3, 4, 100]`: `p50 = 3`, `mean = 22`, `p95 = 4 + 0.8*(100-4) =
80.8 = 404/5`. -/
theorem C7_percentile_interp :
    (∀ (l : List ℚ) (p : ℚ), l ≠ [] →
      percentile l p =
        l.getD (⌊(p / 100) * ((l.length : ℚ) - 1)⌋).toNat 0 +
          (l.getD (⌈(p / 100) * ((l.length : ℚ) - 1)⌉).toNat 0 -
            l.getD (⌊(p / 100) * ((l.length : ℚ) - 1)⌋).toNat 0) *
            ((p / 100) * ((l.length : ℚ) - 1) - (⌊(p / 100) * ((l.length : ℚ) - 1)⌋ : ℚ))) ∧
    (calcStats [1, 2, 3, 4, 100]).map (fun s => (s.p50, s.mean, s.p95)) =
      some (3, 22, 404/5) := by
  constructor
  · intro l p hl
    have hlen : ¬(l.length = 0) := by simpa using hl
    simp only [percentile, if_neg hlen]
    split_ifs with he
    · have hceil : ((⌊(p / 100) * ((l.length : ℚ) - 1)⌋ : Int) : ℚ) =
        (p / 100) * ((l.length : ℚ) - 1) := by
        have hf := Int.floor_le ((p / 100) * ((l.length : ℚ) - 1))
        have hc := Int.le_ceil ((p / 100) * ((l.length : ℚ) - 1))
        rw [← he] at hc
        exact le_antisymm hf hc
      rw [← he, hceil]
      ring
    · rfl
  · decide

/-- C7 witness: the interpolation formula applied to the scenario list at
`p = 95`. -/
theorem C7_percentile_interp_witness :
    percentile [1, 2, 3, 4, 100] 95 =
      ([1, 2, 3, 4, 100] : List ℚ).getD
          (⌊(95 / 100 : ℚ) * ((([1, 2, 3, 4, 100] : List ℚ).length : ℚ) - 1)⌋).toNat 0 +
        (([1, 2, 3, 4, 100] : List ℚ).getD
            (⌈(95 / 100 : ℚ) * ((([1, 2, 3, 4, 100] : List ℚ).length : ℚ) - 1)⌉).toNat 0 -
          ([1, 2, 3, 4, 100] : List ℚ).getD
            (⌊(95 / 100 : ℚ) * ((([1, 2, 3, 4, 100] : List ℚ).length : ℚ) - 1)⌋).toNat 0) *
          ((95 / 100 : ℚ) * ((([1, 2, 3, 4, 100] : List ℚ).length : ℚ) - 1) -
            ((⌊(95 / 100 : ℚ) * ((([1, 2, 3, 4, 100] : List ℚ).length : ℚ) - 1)⌋ : Int) : ℚ)) :=
  C7_percentile_interp.1 [1, 2, 3, 4, 100] 95 (by decide)

/-- C8 (amended): the chart's vertical scale ceiling is
`ceil(observedMax * 1.1)`, where `observedMax` bounds (and is attained by)
the rx/tx Mbps of the valid buckets — except that when `observedMax = 0`
(all observed values zero, or no valid bucket) the source first replaces it
by 1, so the ceiling is `ceil(1.1) = 2`, not 1. -/
theorem C8_nice_max (slots : List Slot) :
    0 ≤ maxMbpsOf slots ∧
    (∀ s ∈ slots, ∀ o, s.obs = some o →
      o.rxMbps ≤ maxMbpsOf slots ∧ o.txMbps ≤ maxMbpsOf slots) ∧
    (maxMbpsOf slots = 0 ∨ ∃ s ∈ slots, ∃ o, s.obs = some o ∧
      (maxMbpsOf slots = o.rxMbps ∨ maxMbpsOf slots = o.txMbps)) ∧
    (maxMbpsOf slots = 0 → niceMax slots = 2) ∧
    (maxMbpsOf slots ≠ 0 → niceMax slots = ⌈maxMbpsOf slots * (11 / 10 : ℚ)⌉) := by
  refine ⟨le_foldl_maxStep slots 0, ?_, ?_, ?_, ?_⟩
  · intro s hs o ho; exact foldl_maxStep_bound slots 0 s o hs ho
  · exact foldl_maxStep_attained slots 0
  · intro h
    simp only [niceMax]
    rw [if_pos h]
    decide
  · intro h
    simp only [niceMax]
    rw [if_neg h]

/-- C8 witness: the non-zero branch of the ceiling formula on a single valid
bucket. -/
theorem C8_nice_max_witness :
    niceMax [⟨0, some ⟨3, 4, 1, 1⟩⟩] =
      ⌈maxMbpsOf [⟨0, some ⟨3, 4, 1, 1⟩⟩] * (11 / 10 : ℚ)⌉ :=
  (C8_nice_max [⟨0, some ⟨3, 4, 1, 1⟩⟩]).2.2.2.2 (by decide)

/-- C8 counterexample: on a bucket sequence with no valid observation the
vertical scale ceiling is `ceil(1 * 1.1) = 2`, not 1 as claimed. -/
theorem C8_counterexample :
    niceMax [⟨0, none⟩] = 2 ∧ niceMax [⟨0, none⟩] ≠ 1 := by decide

/-- C9: with fewer than 2 samples in the queried range the aggregations
return the `none` sentinel ("not enough data"), and only then; this sentinel
is distinct from every `some` result, in particular from one whose buckets
are all marked no-data; with at least 2 samples the insight result is `some`
of exactly `numSlots` buckets. -/
theorem C9_no_data :
    (∀ (rows : List Row) (now S : Int) (N : Nat), showInsight rows now S N = none ↔
      (queriedRows rows (alignedStart now S N) S).length < 2) ∧
    (∀ (rows : List Row) (f : ℚ → Fin 24), getHourlyRates rows f = none ↔ rows.length < 2) ∧
    (∀ (rows : List Row) (now S : Int) (N : Nat) (slots : List Slot),
      showInsight rows now S N = some slots → slots.length = N) ∧
    (∀ slots : List Slot, (some slots : Option (List Slot)) ≠ none) := by
  refine ⟨?_, ?_, ?_, ?_⟩
  · intro rows now S N
    simp only [showInsight]
    split_ifs with h
    · simp [h]
    · simp [h]
  · intro rows f
    simp only [getHourlyRates]
    split_ifs with h
    · simp [h]
    · simp [h]
  · intro rows now S N slots h
    simp only [showInsight] at h
    by_cases hc : (queriedRows rows (alignedStart now S N) S).length < 2
    · rw [if_pos hc] at h; cases h
    · rw [if_neg hc] at h
      injection h with h; subst h
      simp only [insightSlots, List.length_map, List.length_range]
  · intro slots; simp

/-- C9 witness: a concrete two-sample query yields a `some` result of
exactly one bucket. -/
theorem C9_no_data_witness :
    ([⟨300, some ⟨1/125000, 1/125000, 300, 300⟩⟩] : List Slot).length = 1 :=
  C9_no_data.2.2.1 [⟨300, 0, 0, 0, 0⟩, ⟨600, 300, 300, 0, 0⟩] 600 300 1
    [⟨300, some ⟨1/125000, 1/125000, 300, 300⟩⟩] (by decide)

/-- C10: on a window whose timestamps and octet counters are monotonically
non-decreasing in sequence order, the MIN/MAX-aggregate period computation of
`getTraffic` agrees (on rx, tx and duration) with the reference computation
that differences the chronologically last and first samples of the window. -/
theorem C10_traffic_refinement (rows : List Row) (since : Int)
    (ht : rows.Pairwise (fun a b => a.ts ≤ b.ts))
    (hin : rows.Pairwise (fun a b => a.inOct ≤ b.inOct))
    (hout : rows.Pairwise (fun a b => a.outOct ≤ b.outOct)) :
    (getTraffic rows since).map (fun t => (t.rx, t.tx, t.duration)) = refTraffic rows since := by
  have hsub : (trafficWindow rows since).Sublist rows := List.filter_sublist rows
  have hqt := List.Pairwise.sublist hsub ht
  have hqin := List.Pairwise.sublist hsub hin
  have hqout := List.Pairwise.sublist hsub hout
  cases hw : trafficWindow rows since with
  | nil => simp [getTraffic, refTraffic, hw]
  | cons a rs =>
    rw [hw] at hqt hqin hqout
    obtain ⟨b, hb⟩ : ∃ b, (a :: rs).getLast? = some b :=
      ⟨(a :: rs).getLast (List.cons_ne_nil a rs),
        List.getLast?_eq_getLast (a :: rs) (List.cons_ne_nil a rs)⟩
    have hmin : ∀ (g : Row → Int), ((a :: rs).Pairwise (fun x y => g x ≤ g y)) →
        listMin ((a :: rs).map g) = g a := by
      intro g hg
      simp only [listMin, List.map_cons]
      apply foldl_min_sorted
      intro y hy
      rw [List.mem_map] at hy
      obtain ⟨r, hr, hry⟩ := hy
      subst hry
      exact (List.pairwise_cons.mp hg).1 r hr
    have hmax : ∀ (g : Row → Int), ((a :: rs).Pairwise (fun x y => g x ≤ g y)) →
        listMax ((a :: rs).map g) = g b := by
      intro g hg
      have hpw : ((a :: rs).map g).Pairwise (· ≤ ·) := by
        rw [List.pairwise_map]; exact hg
      rw [List.map_cons] at hpw
      have h1 := foldl_max_last (rs.map g) (g a) hpw
      have h2 : ((a :: rs).map g).getLast? = some (g b) := by
        rw [List.getLast?_map, hb]; rfl
      rw [List.map_cons] at h2
      have h4 : (rs.map g).foldl max (g a) = g b := Option.some.inj (h1.trans h2)
      simp only [listMax, List.map_cons]
      exact h4
    simp only [getTraffic, refTraffic, hw, List.head?_cons, hb]
    rw [hmin Row.ts hqt, hmax Row.ts hqt, hmin Row.inOct hqin, hmax Row.inOct hqin,
      hmin Row.outOct hqout, hmax Row.outOct hqout]
    split_ifs with h1 h2 <;> rfl

/-- C10 witness: the refinement equality at a concrete monotone two-sample
window. -/
theorem C10_traffic_refinement_witness :
    (getTraffic [⟨100, 10, 20, 1, 2⟩, ⟨200, 30, 40, 3, 4⟩] 0).map
        (fun t => (t.rx, t.tx, t.duration)) =
      refTraffic [⟨100, 10, 20, 1, 2⟩, ⟨200, 30, 40, 3, 4⟩] 0 :=
  C10_traffic_refinement [⟨100, 10, 20, 1, 2⟩, ⟨200, 30, 40, 3, 4⟩] 0
    (by simp) (by simp) (by simp)

end TrafficPoller
